import Mathlib

/-
Verification of the installer and build orchestrator in bin/lib/installation.py.

The development shallowly embeds the parts of the program the claims are
about:

  1. the declarative target-expansion engine (targets_from and its
     template-expansion loop over ChainMap-layered targets),
  2. the InstallationContext atomic move (move_from_staging) over an
     explicit filesystem model,
  3. the Installable lifecycle (is_installed, dependency checking on
     install, the nightly retention policy),
  4. the build-matrix success tally (makebuildfor and makebuild).

Python strings that may contain format placeholders are modelled as token
lists: a token is either a literal run of characters that contains no
brace, or a placeholder naming a field.  Substituting a placeholder by the
string value of another field splices that fields tokens in, which is
exactly how repeated str.format passes behave.  Python dictionaries are
modelled as association lists with unique keys, and a ChainMap of a leaf
override dict over an inherited config dict is a pair of such lists where
assignment writes to the first (override) layer only.

The filesystem is modelled as a flat map from directory paths to opaque
contents, together with a symlink table and a set of created directories;
os.replace moves the contents bound to one path to another path
atomically, shutil.rmtree deletes a binding.
-/

/-- A piece of a Python string: a brace-free literal run, or a format
placeholder naming a field. -/
inductive Tok where
  | lit (s : String)
  | ph (key : String)
deriving DecidableEq, Repr

/-- A Python string, as a list of tokens. -/
abbrev TStr := List Tok

mutual
/-- A Python value as it occurs in the configuration tree: scalars,
lists of strings, generic lists, dictionaries, None.  vliststr models a
Python list all of whose elements are strings; vlist models any other
list. -/
inductive PyVal where
  | vstr (s : TStr)
  | vbool (b : Bool)
  | vint (n : Int)
  | vfloat (frepr : String)
  | vliststr (l : List TStr)
  | vlist (l : PyList)
  | vdict (entries : PyEntries)
  | vnone
deriving DecidableEq, Repr

/-- A Python list of values. -/
inductive PyList where
  | nil
  | cons (head : PyVal) (tail : PyList)
deriving DecidableEq, Repr

/-- A Python dictionary, as an insertion-ordered list of key/value
pairs with distinct keys. -/
inductive PyEntries where
  | nil
  | cons (key : String) (val : PyVal) (tail : PyEntries)
deriving DecidableEq, Repr
end

def PyList.toListV : PyList → List PyVal
  | .nil => []
  | .cons h t => h :: t.toListV

def PyEntries.lookup : PyEntries → String → Option PyVal
  | .nil, _ => none
  | .cons k v rest, key => if k = key then some v else rest.lookup key

def PyEntries.keys : PyEntries → List String
  | .nil => []
  | .cons k _ rest => k :: rest.keys

/-- Membership of a key in a dictionary (the Python test key in node). -/
def PyEntries.hasKey (e : PyEntries) (key : String) : Bool :=
  (e.lookup key).isSome

/-- A dictionary as an association list (used when a leaf spec dict
becomes the override layer of a ChainMap). -/
def entriesToList : PyEntries → List (String × PyVal)
  | .nil => []
  | .cons k v rest => (k, v) :: entriesToList rest

/-- Association-list lookup (first binding wins). -/
def lookupAssoc {α : Type} : List (String × α) → String → Option α
  | [], _ => none
  | (k, v) :: rest, key => if k = key then some v else lookupAssoc rest key

/-- Association-list update: Python dict assignment, which updates a
present key in place and appends an absent key. -/
def assocSet {α : Type} : List (String × α) → String → α → List (String × α)
  | [], key, v => [(key, v)]
  | (k, w) :: rest, key, v =>
    if k = key then (key, v) :: rest else (k, w) :: assocSet rest key v

/-- Association-list removal of a key. -/
def assocRemove {α : Type} (m : List (String × α)) (key : String) : List (String × α) :=
  m.filter (fun kv => kv.1 ≠ key)

/-- Reserved configuration keys. -/
def ifKey : String := "if"

def targetsKey : String := "targets"

def contextKey : String := "context"

def nameKey : String := "name"

/-- The fixed iteration ceiling of the template-expansion loop
(MAX_ITERS = 5 in the source). -/
def MAX_ITERS : Nat := 5

/-- The opening-brace character, written by code point to keep string
literals brace-free. -/
def openBraceChar : Char := Char.ofNat 123

def closeBraceChar : Char := Char.ofNat 125

/-- Character membership in a string, computed over the character list
so that it reduces definitionally. -/
def strContains (s : String) (c : Char) : Bool :=
  s.toList.contains c

/-- Renders a token back to the concrete characters of the Python
string it stands for. -/
def renderTok : Tok → String
  | .lit s => s
  | .ph key => String.singleton openBraceChar ++ key ++ String.singleton closeBraceChar

/-- Renders a full token string to its concrete characters. -/
def renderPlain (s : TStr) : String :=
  s.foldl (fun acc t => acc ++ renderTok t) ""

/-- The Python test for a value type: str, bool, float, int, or a list
of strings (is_value_type in the source). -/
def is_value_type : PyVal → Bool
  | .vstr _ => true
  | .vbool _ => true
  | .vfloat _ => true
  | .vint _ => true
  | .vliststr _ => true
  | _ => false

/-- The Python test is_list_of_strings, on the embedded value type. -/
def is_list_of_strings : PyVal → Bool
  | .vliststr _ => true
  | _ => false

/-- Python truthiness of a configuration value (the `not node` early
return in _targets_from). -/
def isFalsy : PyVal → Bool
  | .vnone => true
  | .vbool b => !b
  | .vint n => n == 0
  | .vfloat _ => false
  | .vstr s => renderPlain s == ""
  | .vliststr l => l.isEmpty
  | .vlist l => (match l with | .nil => true | .cons _ _ => false)
  | .vdict e => (match e with | .nil => true | .cons _ _ _ => false)

/-- The str() rendering of a value when it is substituted for a
placeholder by str.format.  For strings the tokens are spliced in, so
placeholders inside the substituted value survive to the next pass,
exactly as in Python.  Lists of strings keep their elements tokens,
bracketed and comma-separated (quote characters of the Python repr are
abstracted away).  Dictionaries, generic lists and None are rendered
opaquely; no claim depends on their concrete repr. -/
def renderVal : PyVal → TStr
  | .vstr s => s
  | .vbool b => [.lit (if b then "True" else "False")]
  | .vint n => [.lit (toString n)]
  | .vfloat r => [.lit r]
  | .vliststr l =>
    (match l with
     | [] => [.lit "[]"]
     | x :: xs => [Tok.lit "["] ++ x ++ xs.foldr (fun e acc => [Tok.lit ", "] ++ e ++ acc) [] ++ [Tok.lit "]"])
  | .vdict _ => [.lit "<dict>"]
  | .vlist _ => [.lit "<list>"]
  | .vnone => [.lit "None"]

/-- One emitted target: a ChainMap of the leaf spec override dict over
the accumulated base config dict.  Assignment writes to the override
layer only (ChainMap setitem writes to maps[0]). -/
structure ChainTarget where
  override : List (String × PyVal)
  base : List (String × PyVal)
deriving DecidableEq, Repr

/-- ChainMap lookup: the override layer wins. -/
def chainLookup (t : ChainTarget) (key : String) : Option PyVal :=
  match lookupAssoc t.override key with
  | some v => some v
  | none => lookupAssoc t.base key

/-- ChainMap key order: base keys first (insertion order), then keys
only present in the override layer, mirroring ChainMap iteration,
which updates a fresh dict from the maps in reverse order. -/
def chainKeys (t : ChainTarget) : List String :=
  let baseKeys := t.base.map Prod.fst
  baseKeys ++ (t.override.map Prod.fst).filter (fun k => !(baseKeys.contains k))

/-- ChainMap assignment: writes to the first (override) layer only. -/
def chainSet (t : ChainTarget) (key : String) (v : PyVal) : ChainTarget :=
  { t with override := assocSet t.override key v }

/-- Does a string still contain an unresolved opening brace? -/
def hasOpenBrace (s : TStr) : Bool :=
  s.any fun tok =>
    match tok with
    | .ph _ => true
    | .lit str => strContains str openBraceChar

/-- needs_expansion from the source: some field of the target is a
string, or a list of strings, still containing a brace. -/
def needs_expansion (t : ChainTarget) : Bool :=
  (chainKeys t).any fun key =>
    match chainLookup t key with
    | some (.vliststr l) => l.any hasOpenBrace
    | some (.vstr s) => hasOpenBrace s
    | _ => false

/-- Errors that abort target expansion (the RuntimeErrors raised by
_targets_from). -/
inductive ExpandErr where
  | tooManyMutualReferences (context : List String)
  | unknownKey (key : String) (context : List String)
  | targetWasFloat (frepr : String)
  | badTargetSpec
deriving DecidableEq, Repr

/-- Substitution of one token by str.format: literals stay, a
placeholder is replaced by the rendering of the named field of the same
target; a placeholder naming an absent field is a KeyError, re-raised
as the fatal unknown-key RuntimeError. -/
def substTok (t : ChainTarget) (context : List String) : Tok → Except ExpandErr TStr
  | .lit s => .ok [.lit s]
  | .ph key =>
    match chainLookup t key with
    | some v => .ok (renderVal v)
    | none => .error (.unknownKey key context)

/-- One str.format application over a whole string. -/
def formatTStr (t : ChainTarget) (context : List String) (s : TStr) : Except ExpandErr TStr := do
  let parts ← s.mapM (substTok t context)
  .ok parts.flatten

/-- Processing of one key inside one expansion pass: lists of strings
have each element formatted, strings are formatted, floats are
stringified, everything else is left untouched.  The lookup sees
updates made earlier in the same pass, as the Python loop does. -/
def passStep (context : List String) (t : ChainTarget) (key : String) : Except ExpandErr ChainTarget :=
  match chainLookup t key with
  | none => .ok t
  | some value =>
    match value with
    | .vliststr l => do
      let l' ← l.mapM (fun x => formatTStr t context x)
      .ok (chainSet t key (.vliststr l'))
    | .vstr s => do
      let s' ← formatTStr t context s
      .ok (chainSet t key (.vstr s'))
    | .vfloat r => .ok (chainSet t key (.vstr [.lit r]))
    | _ => .ok t

/-- The body of one expansion pass: fold passStep over the snapshot of
the keys, threading the updated target (the for-loop over
target.items()). -/
def passFold (context : List String) : List String → ChainTarget → Except ExpandErr ChainTarget
  | [], t => .ok t
  | key :: rest, t =>
    match passStep context t key with
    | .error e => .error e
    | .ok t2 => passFold context rest t2

/-- One full pass of the expansion loop: every key of the target is
re-scanned, in ChainMap iteration order, with live lookups. -/
def passOnce (t : ChainTarget) (context : List String) : Except ExpandErr ChainTarget :=
  passFold context (chainKeys t) t

/-- The while-loop of template expansion.  The source counts iterations
upward and raises once the count exceeds MAX_ITERS; here the structural
fuel argument carries MAX_ITERS - iterations so that the recursion is
structural (the inner fuel-exhausted branch is unreachable whenever
fuel = MAX_ITERS - iterations, which expandLoop establishes).  The
returned Nat is the number of completed passes. -/
def expandGo : Nat → ChainTarget → Nat → List String → Nat × Except ExpandErr ChainTarget
  | fuel, t, iterations, context =>
    if needs_expansion t then
      if iterations + 1 > MAX_ITERS then
        (iterations, .error (.tooManyMutualReferences context))
      else
        match fuel with
        | 0 => (iterations, .error (.tooManyMutualReferences context))
        | fuel' + 1 =>
          match passOnce t context with
          | .error e => (iterations + 1, .error e)
          | .ok t' => expandGo fuel' t' (iterations + 1) context
    else (iterations, .ok t)

/-- Template expansion of one emitted target, with its pass count. -/
def expandLoop (t : ChainTarget) (context : List String) : Nat × Except ExpandErr ChainTarget :=
  expandGo MAX_ITERS t 0 context

/-- Processing of one leaf target spec: floats are fatal, a bare string
is shorthand for a dict with just a name, and the spec dict is chained
over the accumulated config and template-expanded. -/
def processSpec (spec : PyVal) (base_config : List (String × PyVal)) (context : List String) :
    Except ExpandErr ChainTarget :=
  match spec with
  | .vfloat r => .error (.targetWasFloat r)
  | .vstr s => (expandLoop ⟨[(nameKey, .vstr s)], base_config⟩ context).2
  | .vdict entries => (expandLoop ⟨entriesToList entries, base_config⟩ context).2
  | _ => .error .badTargetSpec


/-- The guard check: the value of the if key must be a string naming an
enabled feature flag (the Python membership test of the condition in
the enabled set; a non-string condition is never a member). -/
def condEnabled (cond : PyVal) (enabled : List String) : Bool :=
  match cond with
  | .vstr s => enabled.contains (renderPlain s)
  | _ => false

/-- Merging a nodes own fields over the inherited accumulated config:
every entry except the targets key whose value is a value type is
assigned into a copy of the config, in declaration order.  Scalars
override and lists of strings replace wholesale. -/
def mergeEntries (base_config : List (String × PyVal)) : PyEntries → List (String × PyVal)
  | .nil => base_config
  | .cons key value rest =>
    mergeEntries
      (if key ≠ targetsKey && is_value_type value then assocSet base_config key value
       else base_config)
      rest

/-- The list of leaf target specs under a targets key.  A Python list
of strings and a generic list are both lists; anything else yields no
specs. -/
def specsOf : PyVal → List PyVal
  | .vlist l => l.toListV
  | .vliststr l => l.map (fun s => PyVal.vstr s)
  | _ => []

/-- Processing of every leaf spec of one node against the same
accumulated config (the for-loop over node targets). -/
def processSpecs (specs : List PyVal) (base_config : List (String × PyVal))
    (context : List String) : Except ExpandErr (List ChainTarget) :=
  match specs with
  | [] => .ok []
  | s :: rest => do
    let t ← processSpec s base_config context
    let ts ← processSpecs rest base_config context
    .ok (t :: ts)

mutual
/-- The recursive traversal _targets_from.  Falsy nodes contribute
nothing; a list node recurses into its elements; a dict node returns
early when its if guard names a flag that is not enabled, otherwise
appends its name to the context path, merges its value-type fields over
the inherited config, recurses into every entry (in declaration order),
and finally emits its own leaf targets with the context recorded in the
config, so that children targets precede the parent nodes own. -/
def _targets_from (node : PyVal) (enabled : List String) (context : List String)
    (name : String) (base_config : List (String × PyVal)) :
    Except ExpandErr (List ChainTarget) :=
  if isFalsy node then .ok []
  else
    match node with
    | .vlist children => _targets_from_list children enabled context name base_config
    | .vliststr _ => .ok []
    | .vdict entries =>
      if (match entries.lookup ifKey with
          | some cond => condEnabled cond enabled
          | none => true) then
        let context := if name ≠ "" then context ++ [name] else context
        let base_config := mergeEntries base_config entries
        (do
          let childTargets ← _targets_from_entries entries enabled context base_config
          match entries.lookup targetsKey with
          | some tv =>
            let base_config :=
              assocSet base_config contextKey (.vliststr (context.map (fun c => [Tok.lit c])))
            let own ← processSpecs (specsOf tv) base_config context
            .ok (childTargets ++ own)
          | none => .ok childTargets)
      else .ok []
    | _ => .ok []
termination_by structural node

/-- Traversal of the elements of a list node, preserving order. -/
def _targets_from_list (nodes : PyList) (enabled : List String) (context : List String)
    (name : String) (base_config : List (String × PyVal)) :
    Except ExpandErr (List ChainTarget) :=
  match nodes with
  | .nil => .ok []
  | .cons child rest => do
    let ts ← _targets_from child enabled context name base_config
    let rest' ← _targets_from_list rest enabled context name base_config
    .ok (ts ++ rest')
termination_by structural nodes

/-- Traversal of the entries of a dict node in declaration order; each
entry is recursed into with its key as the child name (scalar entries
and the targets entry itself contribute nothing on this path). -/
def _targets_from_entries (entries : PyEntries) (enabled : List String)
    (context : List String) (base_config : List (String × PyVal)) :
    Except ExpandErr (List ChainTarget) :=
  match entries with
  | .nil => .ok []
  | .cons child_name child rest => do
    let ts ← _targets_from child enabled context child_name base_config
    let rest' ← _targets_from_entries rest enabled context base_config
    .ok (ts ++ rest')
termination_by structural entries
end

/-- Entry point targets_from (the initial context is empty and the
node is anonymous). -/
def targets_from (node : PyVal) (enabled : List String)
    (base_config : List (String × PyVal)) : Except ExpandErr (List ChainTarget) :=
  _targets_from node enabled [] "" base_config

/-- Opaque contents of one installed directory tree. -/
abbrev Content := Nat

/-- The filesystem model: a flat map from directory paths to opaque
contents (files), a symlink table (links), and the set of directories
created by make_subdir (dirs). -/
structure FsState where
  files : List (String × Content)
  links : List (String × String)
  dirs : List String
deriving DecidableEq, Repr

def fsLookup (files : List (String × Content)) (path : String) : Option Content :=
  lookupAssoc files path

def fsSet (files : List (String × Content)) (path : String) (c : Content) :
    List (String × Content) :=
  assocSet files path c

/-- shutil.rmtree with ignore_errors: drop the binding if present. -/
def fsRemove (files : List (String × Content)) (path : String) : List (String × Content) :=
  assocRemove files path

/-- os.replace: atomically rename src to dst, overwriting dst.  The
callers below only invoke it with an existing src; a missing src leaves
the map unchanged here (the Python call would raise). -/
def fsReplace (files : List (String × Content)) (src dst : String) :
    List (String × Content) :=
  match fsLookup files src with
  | some c => fsSet (fsRemove files src) dst c
  | none => files

/-- os.path.join for one relative component (join of an empty left part
is the right part, as in Python). -/
def joinPath (a b : String) : String :=
  if a = "" then b else a ++ "/" ++ b

/-- The shared installation environment (the fields of
InstallationContext the claims depend on; the fetcher and s3 url are
external collaborators). -/
structure InstallationContext where
  destination : String
  staging : String
  dry_run : Bool
deriving DecidableEq, Repr

/-- The fixed temporary sibling name used by move_from_staging. -/
def tempOrigName : String := "temp_orig"

/-- Is a path strictly below a directory (prefix match on the joined
path)? -/
def underDir (dir path : String) : Bool :=
  (dir ++ "/").toList.isPrefixOf path.toList

/-- clean_staging: recursively delete everything under the staging
directory and recreate it empty. -/
def InstallationContext.clean_staging (ctx : InstallationContext) (st : FsState) : FsState :=
  { st with files := st.files.filter (fun kv => !underDir ctx.staging kv.1) }

/-- make_subdir: create a destination subdirectory when absent. -/
def InstallationContext.make_subdir (ctx : InstallationContext) (st : FsState)
    (subdir : String) : FsState :=
  let full_subdir := joinPath ctx.destination subdir
  if st.dirs.contains full_subdir then st
  else { st with dirs := full_subdir :: st.dirs }

/-- set_link: in dry-run mode do nothing; otherwise remove any existing
link at the destination and symlink it to the source. -/
def InstallationContext.set_link (ctx : InstallationContext) (st : FsState)
    (source dest : String) : FsState :=
  if ctx.dry_run then st
  else { st with links := assocSet st.links (joinPath ctx.destination dest) source }

/-- remove_dir: in dry-run mode do nothing; otherwise rmtree the
directory under the destination root, ignoring errors. -/
def InstallationContext.remove_dir (ctx : InstallationContext) (st : FsState)
    (directory : String) : FsState :=
  if ctx.dry_run then st
  else { st with files := fsRemove st.files (joinPath ctx.destination directory) }

/-- Glob match for the patterns the program uses: a literal prefix
followed by one trailing star, or a fully literal pattern. -/
def globMatch (pattern path : String) : Bool :=
  match pattern.toList.getLast? with
  | some c =>
    if c = Char.ofNat 42 then pattern.toList.dropLast.isPrefixOf path.toList
    else pattern == path
  | none => pattern == path

/-- The path relative to a root directory (os.path.relpath for a path
strictly below the root). -/
def relFrom (root path : String) : String :=
  String.mk (path.toList.drop (root.toList.length + 1))

/-- glob: all destination-relative paths of filesystem entries matching
the pattern under the destination root. -/
def InstallationContext.glob (ctx : InstallationContext) (st : FsState)
    (pattern : String) : List String :=
  (st.files.map Prod.fst).filterMap fun p =>
    if globMatch (joinPath ctx.destination pattern) p then some (relFrom ctx.destination p)
    else none

/-- Lexicographic comparison of character lists by code point (the
Python string order), computed so that it reduces definitionally. -/
def strLtList : List Char → List Char → Bool
  | [], [] => false
  | [], _ :: _ => true
  | _ :: _, [] => false
  | a :: as, b :: bs =>
    if a.val < b.val then true
    else if b.val < a.val then false
    else strLtList as bs

/-- Python string comparison, lexicographic by code point. -/
def strLt (a b : String) : Bool :=
  strLtList a.toList b.toList

/-- Lexicographic insertion of a string into a sorted list. -/
def insertSorted (s : String) : List String → List String
  | [] => [s]
  | x :: xs => if strLt s x then s :: x :: xs else x :: insertSorted s xs

/-- Python sorted() on strings: ascending lexicographic order. -/
def sortedStrings (l : List String) : List String :=
  l.foldr insertSorted []

/-- Outcome of one move_from_staging call: normal return, the missing
source RuntimeError, or the re-raised failure of the rename-in step. -/
inductive MoveOutcome where
  | ok
  | errMissingSource
  | errRenameFailed
deriving DecidableEq, Repr

/-- The atomic move.  In dry-run mode nothing happens.  A missing
source raises.  If the destination exists it is first renamed aside to
the temp_orig sibling inside staging; then the source is renamed into
the destination (the rename_in_fails flag simulates this step
failing).  On success the aside-renamed old destination is deleted
best-effort; on failure the finally block renames it back into place
and re-raises. -/
def InstallationContext.move_from_staging (ctx : InstallationContext) (st : FsState)
    (rename_in_fails : Bool) (source : String) (dest : Option String) :
    MoveOutcome × FsState :=
  let dest := dest.getD source
  let existing_dir_rename := joinPath ctx.staging tempOrigName
  let source := joinPath ctx.staging source
  let dest := joinPath ctx.destination dest
  if ctx.dry_run then (.ok, st)
  else if (fsLookup st.files source).isNone then (.errMissingSource, st)
  else if (fsLookup st.files dest).isSome then
    let files1 := fsReplace st.files dest existing_dir_rename
    if rename_in_fails then
      (.errRenameFailed, { st with files := fsReplace files1 existing_dir_rename dest })
    else
      let files2 := fsReplace files1 source dest
      (.ok, { st with files := fsRemove files2 existing_dir_rename })
  else
    if rename_in_fails then (.errRenameFailed, st)
    else (.ok, { st with files := fsReplace st.files source dest })

/-- The result of an install call of a concrete installable: either a
normal boolean return with the final state, or a propagated exception
from the atomic move. -/
inductive InstallResult where
  | returned (b : Bool) (st : FsState)
  | raised (e : MoveOutcome) (st : FsState)
deriving DecidableEq, Repr

def InstallResult.state : InstallResult → FsState
  | .returned _ st => st
  | .raised _ st => st

def InstallResult.isSuccess : InstallResult → Bool
  | .returned b _ => b
  | .raised _ _ => false

/-- The base-class dependency check of Installable.install: scan the
declared dependees (each given by its is_installed result), record
whether any is missing, and return False when one is. -/
def Installable.install (depends_installed : List Bool) : Bool :=
  let any_missing :=
    depends_installed.foldl (fun any_missing inst => if !inst then true else any_missing) false
  !any_missing

/-- Outcome of the probe command run by is_installed when no symlink or
marker-file check applies. -/
inductive ProbeOutcome where
  | exitZero
  | fileNotFound
  | calledProcessError
deriving DecidableEq, Repr

/-- The check configuration of one installable, together with the
probe outcome the external state would produce: check_link is None when
no symlink-equivalence check is configured and otherwise carries the
equivalence result; check_file is None when falsy and otherwise
carries the isfile result for the marker path. -/
structure CheckConfig where
  check_link : Option Bool
  check_file : Option Bool
  probe : ProbeOutcome
deriving DecidableEq, Repr

/-- is_installed: a failing configured symlink check is authoritative;
otherwise a configured marker file is authoritative; otherwise the
probe command decides, with a missing executable and a non-zero exit
both caught and read as not installed. -/
def Installable.is_installed (c : CheckConfig) : Bool :=
  if c.check_link = some false then false
  else
    match c.check_file with
    | some present => present
    | none =>
      match c.probe with
      | .exitZero => true
      | .fileNotFound => false
      | .calledProcessError => false

/-- The fields of GitHubInstallable that its install path uses. -/
structure GitHubInstallable where
  untar_dir : String
  path_name : String
  subdir : String
deriving DecidableEq, Repr

/-- GitHubInstallable.stage: clear the staging directory, then fetch
and unpack the archive (or clone), leaving the untar directory in
staging with the fetched contents. -/
def GitHubInstallable.stage (g : GitHubInstallable) (ctx : InstallationContext)
    (st : FsState) (fetched : Content) : FsState :=
  let st := ctx.clean_staging st
  { st with files := fsSet st.files (joinPath ctx.staging g.untar_dir) fetched }

/-- GitHubInstallable.install: the base-class dependency check first
(returning False without touching any state when a dependee is
missing), then stage, make the destination subdirectory, and atomically
move the unpacked tree into place. -/
def GitHubInstallable.install (g : GitHubInstallable) (depends_installed : List Bool)
    (ctx : InstallationContext) (st : FsState) (fetched : Content)
    (rename_in_fails : Bool) : InstallResult :=
  if Installable.install depends_installed = false then .returned false st
  else
    let st := g.stage ctx st fetched
    let st := if g.subdir ≠ "" then ctx.make_subdir st g.subdir else st
    match ctx.move_from_staging st rename_in_fails g.untar_dir (some g.path_name) with
    | (.ok, st) => .returned true st
    | (e, st) => .raised e st

/-- Python max over a list of version strings (lexicographically
greatest; the constructor guarantees the list is non-empty, so the
empty-string seed is never the result). -/
def maxString (l : List String) : String :=
  l.foldl (fun a b => if strLt a b then b else a) ""

/-- The fields of NightlyInstallable relevant to install: its
configuration plus the available version listing for its compiler
name (an external collaborator). -/
structure NightlyInstallable where
  compiler_name : String
  subdir : String
  num_to_keep : Nat
  available : List String
deriving DecidableEq, Repr

def NightlyInstallable.most_recent (n : NightlyInstallable) : String :=
  maxString n.available

def NightlyInstallable.s3_path (n : NightlyInstallable) : String :=
  n.compiler_name ++ "-" ++ n.most_recent

def NightlyInstallable.path_name (n : NightlyInstallable) : String :=
  joinPath n.subdir n.s3_path

def NightlyInstallable.compiler_pattern (n : NightlyInstallable) : String :=
  joinPath n.subdir (n.compiler_name ++ "-" ++ String.singleton (Char.ofNat 42))

def NightlyInstallable.path_name_symlink (n : NightlyInstallable) : String :=
  joinPath n.subdir n.compiler_name

/-- NightlyInstallable.stage: clear staging and unpack the most recent
nightly tarball into it. -/
def NightlyInstallable.stage (n : NightlyInstallable) (ctx : InstallationContext)
    (st : FsState) (fetched : Content) : FsState :=
  let st := ctx.clean_staging st
  { st with files := fsSet st.files (joinPath ctx.staging n.s3_path) fetched }

/-- NightlyInstallable.install: dependency check, stage, then the
retention pass (num_to_keep is incremented by one for the version not
yet installed, all installed versions matching the compiler glob are
sorted ascending and every one before the last num_to_keep is
removed), then the atomic move and the repointing of the current
symlink. -/
def NightlyInstallable.install (n : NightlyInstallable) (depends_installed : List Bool)
    (ctx : InstallationContext) (st : FsState) (fetched : Content)
    (rename_in_fails : Bool) : InstallResult :=
  if Installable.install depends_installed = false then .returned false st
  else
    let st := n.stage ctx st fetched
    let num_to_keep := n.num_to_keep + 1
    let all_versions := sortedStrings (ctx.glob st n.compiler_pattern)
    let st := (all_versions.take (all_versions.length - num_to_keep)).foldl
      (fun s d => ctx.remove_dir s d) st
    match ctx.move_from_staging st rename_in_fails n.s3_path (some n.path_name) with
    | (.ok, st) =>
      let st := ctx.set_link st n.s3_path n.path_name_symlink
      .returned true st
    | (e, st) => .raised e st

/-- The tail of makebuildfor that decides the returned success value:
builtok is the build-script result, and when the build succeeded and
dry-run is off, builtok is reassigned to the conan-export result.  The
second component records whether the conan export script was run. -/
def Installable.makebuildfor (builtok_build : Bool) (dry_run : Bool)
    (conan_ok : Bool) : Bool × Bool :=
  let builtok := builtok_build
  if builtok then
    if !dry_run then (conan_ok, true)
    else (builtok, false)
  else (builtok, false)

/-- The tally of makebuild over the per-combination outcomes of
makebuildfor: count successes and failures, and succeed overall iff no
combination failed. -/
def Installable.makebuild (outcomes : List Bool) : Bool :=
  let counts := outcomes.foldl
    (fun (counts : Nat × Nat) builtok =>
      if builtok then (counts.1 + 1, counts.2) else (counts.1, counts.2 + 1))
    (0, 0)
  counts.2 == 0

/-- Concrete installation context used in examples: destination tree at
opt, staging area at staging, dry-run off. -/
def exCtx : InstallationContext := ⟨"opt", "staging", false⟩

/-- A staged source and a pre-existing destination, for the atomic-move
examples. -/
def exMoveState : FsState := ⟨[("staging/src", 7), ("opt/dst", 3)], [], []⟩

/-- The nightly of the end-to-end retention scenario: retain count 2,
ascending pre-existing versions v1 v2 v3, new discovered version v4. -/
def c2Nightly : NightlyInstallable := ⟨"gcc", "", 2, ["v4", "v1", "v2", "v3"]⟩

def c2State : FsState := ⟨[("opt/gcc-v1", 1), ("opt/gcc-v2", 2), ("opt/gcc-v3", 3)], [], []⟩

/-- The nightly install run of the retention scenario (no dependees,
fetched contents 4, rename-in succeeding). -/
def c2Run : InstallResult := NightlyInstallable.install c2Nightly [] exCtx c2State 4 false

/-- A target whose two fields reference each other and nothing else: an
unresolvable mutual cycle. -/
def c4Cyclic : ChainTarget := ⟨[("a", .vstr [.ph "b"]), ("b", .vstr [.ph "a"])], []⟩

/-- A target with no unresolved placeholder anywhere. -/
def c4Resolved : ChainTarget := ⟨[(nameKey, .vstr [.lit "t"])], [("x", .vstr [.lit "v"])]⟩

/-- A two-level tree where both the root and the child define the
list-of-strings field libs. -/
def c6Tree : PyVal :=
  .vdict (.cons ("libs") (.vliststr [[.lit "a"]])
    (.cons ("sub") (.vdict (.cons ("libs") (.vliststr [[.lit "b"]])
      (.cons ("targets") (.vliststr [[.lit "t"]]) .nil))) .nil))

/-- The single target c6Tree emits: it carries the childs libs value
wholesale, not the concatenation with the parents. -/
def c6Target : ChainTarget :=
  ⟨[(nameKey, .vstr [.lit "t"])],
   [("libs", .vliststr [[.lit "b"]]), (contextKey, .vliststr [[.lit "sub"]])]⟩

/-- A guarded node (flag_a) containing a child node with its own guard
(flag_b) and a leaf target. -/
def c9Outer : PyVal :=
  .vdict (.cons ("if") (.vstr [.lit "flag_a"])
    (.cons ("inner") (.vdict (.cons ("if") (.vstr [.lit "flag_b"])
      (.cons ("targets") (.vliststr [[.lit "t"]]) .nil))) .nil))

/-- The target c9Outer emits: its if field holds the inner guards
flag, not the outer one. -/
def c9OuterTarget : ChainTarget :=
  ⟨[(nameKey, .vstr [.lit "t"])],
   [(ifKey, .vstr [.lit "flag_b"]), (contextKey, .vliststr [[.lit "inner"]])]⟩

/-- A single guarded node with a leaf target. -/
def c9Simple : PyVal :=
  .vdict (.cons ("if") (.vstr [.lit "flag_a"])
    (.cons ("targets") (.vliststr [[.lit "t"]]) .nil))

def c9SimpleTarget : ChainTarget :=
  ⟨[(nameKey, .vstr [.lit "t"])],
   [(ifKey, .vstr [.lit "flag_a"]), (contextKey, .vliststr [])]⟩

/-- A GitHub installable for the dependency-check examples. -/
def c8Git : GitHubInstallable := ⟨"repo-v1", "libs/lib/v1", "libs/lib"⟩

theorem lookupAssoc_assocSet_self {α : Type} (m : List (String × α)) (k : String) (v : α) :
    lookupAssoc (assocSet m k v) k = some v := by
  induction m with
  | nil => simp [assocSet, lookupAssoc]
  | cons kv rest ih =>
    obtain ⟨k0, w⟩ := kv
    by_cases h : k0 = k
    · subst h
      simp [assocSet, lookupAssoc]
    · simp [assocSet, lookupAssoc, h, ih]

theorem lookupAssoc_assocSet_ne {α : Type} (m : List (String × α)) (k1 k : String) (v : α)
    (h : k1 ≠ k) : lookupAssoc (assocSet m k1 v) k = lookupAssoc m k := by
  induction m with
  | nil => simp [assocSet, lookupAssoc, h]
  | cons kv rest ih =>
    obtain ⟨k0, w⟩ := kv
    by_cases h0 : k0 = k1
    · subst h0
      simp [assocSet, lookupAssoc, h]
    · simp [assocSet, lookupAssoc, h0, ih]

theorem lookupAssoc_assocRemove_ne {α : Type} (m : List (String × α)) (k1 k : String)
    (h : k1 ≠ k) : lookupAssoc (assocRemove m k1) k = lookupAssoc m k := by
  induction m with
  | nil => simp [assocRemove, lookupAssoc]
  | cons kv rest ih =>
    obtain ⟨k0, w⟩ := kv
    by_cases h0 : k0 = k1
    · subst h0
      have hk : k0 ≠ k := h
      simp [assocRemove, List.filter, lookupAssoc, hk] at ih ⊢
      exact ih
    · by_cases hk : k0 = k
      · subst hk
        simp [assocRemove, List.filter, lookupAssoc, h0]
      · simp [assocRemove, List.filter, lookupAssoc, h0, hk] at ih ⊢
        exact ih

theorem fsLookup_fsSet_self (files : List (String × Content)) (k : String) (c : Content) :
    fsLookup (fsSet files k c) k = some c :=
  lookupAssoc_assocSet_self files k c

theorem fsLookup_fsSet_ne (files : List (String × Content)) (k1 k : String) (c : Content)
    (h : k1 ≠ k) : fsLookup (fsSet files k1 c) k = fsLookup files k :=
  lookupAssoc_assocSet_ne files k1 k c h

theorem fsLookup_fsRemove_ne (files : List (String × Content)) (k1 k : String)
    (h : k1 ≠ k) : fsLookup (fsRemove files k1) k = fsLookup files k :=
  lookupAssoc_assocRemove_ne files k1 k h

theorem PyEntries.inductionOn (motive : PyEntries → Prop) (hnil : motive .nil)
    (hcons : ∀ k v rest, motive rest → motive (.cons k v rest)) : ∀ e, motive e
  | .nil => hnil
  | .cons k v rest => hcons k v rest (PyEntries.inductionOn motive hnil hcons rest)

theorem mergeEntries_lookup_of_not_mem (entries : PyEntries) (base : List (String × PyVal))
    (key : String) (h : key ∉ entries.keys) :
    lookupAssoc (mergeEntries base entries) key = lookupAssoc base key := by
  induction entries using PyEntries.inductionOn generalizing base with
  | hnil => rfl
  | hcons k0 v0 rest ih =>
    simp only [PyEntries.keys, List.mem_cons, not_or] at h
    obtain ⟨hk0, hrest⟩ := h
    show lookupAssoc (mergeEntries _ rest) key = _
    rw [ih _ hrest]
    split
    · exact lookupAssoc_assocSet_ne base k0 key v0 (fun e => hk0 (e.symm))
    · rfl

theorem mergeEntries_lookup_of_nodup (entries : PyEntries) (base : List (String × PyVal))
    (key : String) (v : PyVal) (hnd : entries.keys.Nodup)
    (hl : entries.lookup key = some v) (hvt : is_value_type v = true)
    (hkt : key ≠ targetsKey) :
    lookupAssoc (mergeEntries base entries) key = some v := by
  induction entries using PyEntries.inductionOn generalizing base with
  | hnil => simp [PyEntries.lookup] at hl
  | hcons k0 v0 rest ih =>
    rw [PyEntries.keys, List.nodup_cons] at hnd
    obtain ⟨hk0, hrest⟩ := hnd
    by_cases h : k0 = key
    · subst h
      rw [PyEntries.lookup, if_pos rfl] at hl
      obtain rfl := Option.some.inj hl
      show lookupAssoc (mergeEntries _ rest) k0 = some v0
      rw [mergeEntries_lookup_of_not_mem rest _ k0 hk0]
      rw [if_pos (by simp [hkt, hvt])]
      exact lookupAssoc_assocSet_self base k0 v0
    · rw [PyEntries.lookup, if_neg h] at hl
      exact ih _ hrest hl

theorem installFoldAux (l : List Bool) (b : Bool) :
    (!(l.foldl (fun any_missing inst => if !inst then true else any_missing) b)) =
    (!b && l.all fun d => d) := by
  induction l generalizing b with
  | nil => simp
  | cons d rest ih =>
    rw [List.foldl_cons, List.all_cons, ih]
    cases d <;> simp

theorem Installable.install_eq_all (depends_installed : List Bool) :
    Installable.install depends_installed = depends_installed.all (fun d => d) := by
  have h := installFoldAux depends_installed false
  simp only [Bool.not_false, Bool.true_and] at h
  simpa [Installable.install] using h

theorem makebuildCountAux (l : List Bool) (s f : Nat) :
    ((l.foldl
      (fun (counts : Nat × Nat) builtok =>
        if builtok then (counts.1 + 1, counts.2) else (counts.1, counts.2 + 1))
      (s, f)).2 == 0) = ((f == 0) && l.all fun b => b) := by
  induction l generalizing s f with
  | nil => simp
  | cons d rest ih =>
    cases d
    · rw [List.foldl_cons]
      show ((rest.foldl _ (s, f + 1)).2 == 0) = _
      rw [ih]
      simp
    · rw [List.foldl_cons]
      show ((rest.foldl _ (s + 1, f)).2 == 0) = _
      rw [ih]
      simp

theorem Installable.makebuild_eq_all (outcomes : List Bool) :
    Installable.makebuild outcomes = outcomes.all (fun b => b) := by
  have h := makebuildCountAux outcomes 0 0
  simp only [beq_self_eq_true, Bool.true_and] at h
  simpa [Installable.makebuild] using h

theorem chainSet_base (t : ChainTarget) (key : String) (v : PyVal) :
    (chainSet t key v).base = t.base := rfl

theorem passStep_base (context : List String) (t : ChainTarget) (key : String)
    (t2 : ChainTarget) (h : passStep context t key = .ok t2) : t2.base = t.base := by
  unfold passStep at h
  split at h
  · cases h
    rfl
  · split at h
    · simp only [bind, Except.bind] at h
      split at h
      · cases h
      · cases h
        rfl
    · simp only [bind, Except.bind] at h
      split at h
      · cases h
      · cases h
        rfl
    · cases h
      rfl
    · cases h
      rfl

theorem passFold_base (context : List String) (keys : List String) (t t2 : ChainTarget)
    (h : passFold context keys t = .ok t2) : t2.base = t.base := by
  induction keys generalizing t with
  | nil =>
    cases h
    rfl
  | cons key rest ih =>
    unfold passFold at h
    cases hs : passStep context t key with
    | error e => rw [hs] at h; cases h
    | ok t1 =>
      rw [hs] at h
      rw [ih t1 h]
      exact passStep_base context t key t1 hs

theorem passOnce_base (t : ChainTarget) (context : List String) (t2 : ChainTarget)
    (h : passOnce t context = .ok t2) : t2.base = t.base :=
  passFold_base context (chainKeys t) t t2 h

theorem expandGo_base (fuel : Nat) (t : ChainTarget) (iterations : Nat)
    (context : List String) (n : Nat) (t2 : ChainTarget)
    (h : expandGo fuel t iterations context = (n, .ok t2)) : t2.base = t.base := by
  induction fuel generalizing t iterations with
  | zero =>
    unfold expandGo at h
    split at h
    · split at h
      · cases h
      · simp at h
    · cases h
      rfl
  | succ fuel ih =>
    unfold expandGo at h
    split at h
    · split at h
      · cases h
      · cases hp : passOnce t context with
        | error e =>
          rw [hp] at h
          simp at h
        | ok t1 =>
          rw [hp] at h
          have h2 : expandGo fuel t1 (iterations + 1) context = (n, .ok t2) := h
          rw [ih t1 (iterations + 1) h2]
          exact passOnce_base t context t1 hp
    · cases h
      rfl

theorem expandLoop_base (t : ChainTarget) (context : List String) (n : Nat)
    (t2 : ChainTarget) (h : expandLoop t context = (n, .ok t2)) : t2.base = t.base :=
  expandGo_base MAX_ITERS t 0 context n t2 h

theorem processSpec_base (spec : PyVal) (base_config : List (String × PyVal))
    (context : List String) (t : ChainTarget)
    (h : processSpec spec base_config context = .ok t) : t.base = base_config := by
  unfold processSpec at h
  split at h
  · cases h
  · exact expandLoop_base _ context _ t
      (Prod.ext rfl h : expandLoop _ context = (_, .ok t))
  · exact expandLoop_base _ context _ t
      (Prod.ext rfl h : expandLoop _ context = (_, .ok t))
  · cases h

theorem processSpecs_base (specs : List PyVal) (base_config : List (String × PyVal))
    (context : List String) (ts : List ChainTarget)
    (h : processSpecs specs base_config context = .ok ts) :
    ∀ t ∈ ts, t.base = base_config := by
  induction specs generalizing ts with
  | nil =>
    cases h
    intro t ht
    cases ht
  | cons s rest ih =>
    unfold processSpecs at h
    simp only [bind, Except.bind] at h
    cases hp : processSpec s base_config context with
    | error e =>
      rw [hp] at h
      cases h
    | ok t1 =>
      rw [hp] at h
      cases hr : processSpecs rest base_config context with
      | error e =>
        rw [hr] at h
        cases h
      | ok ts1 =>
        rw [hr] at h
        have h2 : (Except.ok (t1 :: ts1) : Except ExpandErr (List ChainTarget)) = .ok ts := h
        cases h2
        intro t ht
        rcases List.mem_cons.mp ht with rfl | hmem
        · exact processSpec_base s base_config context t hp
        · exact ih ts1 hr t hmem

/-- C10: template-expanding one emitted target writes only into the
leaf's own override layer: the base (accumulated-config) layer of the
expanded target is exactly the mapping it was chained over, and every
target emitted from the same node's leaf-spec list carries that same
untouched mapping, so sibling leaf specs see unchanged fields. -/
theorem expansion_writes_override_layer_only :
    (∀ (t : ChainTarget) (context : List String) (n : Nat) (t2 : ChainTarget),
        expandLoop t context = (n, .ok t2) → t2.base = t.base)
    ∧ (∀ (specs : List PyVal) (base_config : List (String × PyVal))
        (context : List String) (ts : List ChainTarget),
        processSpecs specs base_config context = .ok ts →
        ∀ t ∈ ts, t.base = base_config) :=
  ⟨fun t context n t2 h => expandLoop_base t context n t2 h,
   fun specs base_config context ts h => processSpecs_base specs base_config context ts h⟩

theorem expansion_writes_override_layer_only_witness :
    ({ override := [(nameKey, PyVal.vstr [Tok.lit "t"])],
       base := [("x", PyVal.vint 1)] } : ChainTarget).base = [("x", PyVal.vint 1)] :=
  expansion_writes_override_layer_only.2 [PyVal.vstr [Tok.lit "t"]] [("x", PyVal.vint 1)] []
    [⟨[(nameKey, PyVal.vstr [Tok.lit "t"])], [("x", PyVal.vint 1)]⟩] rfl
    _ (List.mem_singleton.mpr rfl)

/-- C4: a target whose fields form an unresolvable mutual cycle fails
with the too-many-mutual-references error naming the context path,
after exactly MAX_ITERS = 5 completed passes (the returned pass count
is 5: not earlier, not later), while a target with no unresolved
placeholder undergoes zero passes and is returned unchanged, so
re-running expansion on a fully-resolved target is a no-op. -/
theorem template_expansion_iteration_ceiling :
    expandLoop c4Cyclic ["lib"] = (5, .error (.tooManyMutualReferences ["lib"]))
    ∧ (∀ (t : ChainTarget) (context : List String),
        needs_expansion t = false → expandLoop t context = (0, .ok t)) := by
  constructor
  · rfl
  · intro t context h
    unfold expandLoop expandGo
    rw [h]
    simp

theorem template_expansion_iteration_ceiling_witness :
    expandLoop c4Resolved [] = (0, .ok c4Resolved) :=
  template_expansion_iteration_ceiling.2 c4Resolved [] rfl

/-- C5: a dict node whose if-guard names a flag that is not enabled
expands to no targets at all: the traversal returns the empty list for
the node and hence for its entire subtree and leaf specs. -/
theorem disabled_guard_yields_no_targets (entries : PyEntries) (enabled : List String)
    (context : List String) (name : String) (base_config : List (String × PyVal))
    (cond : PyVal) (hif : entries.lookup ifKey = some cond)
    (hdis : condEnabled cond enabled = false) :
    _targets_from (.vdict entries) enabled context name base_config = .ok [] := by
  cases entries with
  | nil => simp [PyEntries.lookup] at hif
  | cons k v rest =>
    unfold _targets_from
    simp [isFalsy, hif, hdis]

theorem disabled_guard_yields_no_targets_witness :
    _targets_from (.vdict (.cons ("if") (.vstr [.lit "beta"]) .nil)) [] [] "" [] = .ok [] :=
  disabled_guard_yields_no_targets _ [] [] "" [] _ rfl rfl

/-- C6: a list-of-strings field defined both by an ancestor and by a
nearer node reaches the target as exactly the nearer node's value
(assignment into the accumulated config replaces wholesale), and in
the concrete two-level tree the emitted target carries the child's
libs list alone, not the concatenation with the parent's. -/
theorem list_fields_replace_not_concat :
    (∀ (base : List (String × PyVal)) (entries : PyEntries) (key : String) (l : List TStr),
        entries.keys.Nodup → entries.lookup key = some (.vliststr l) → key ≠ targetsKey →
        lookupAssoc (mergeEntries base entries) key = some (.vliststr l))
    ∧ targets_from c6Tree [] [] = .ok [c6Target]
    ∧ chainLookup c6Target ("libs") = some (.vliststr [[.lit "b"]]) := by
  refine ⟨?_, rfl, rfl⟩
  intro base entries key l hnd hl hk
  exact mergeEntries_lookup_of_nodup entries base key _ hnd hl rfl hk

theorem list_fields_replace_not_concat_witness :
    lookupAssoc (mergeEntries [("libs", PyVal.vliststr [[Tok.lit "a"]])]
      (.cons ("libs") (.vliststr [[.lit "b"]]) .nil)) ("libs") =
    some (PyVal.vliststr [[Tok.lit "b"]]) :=
  list_fields_replace_not_concat.1 _ _ _ _ (by decide) rfl (by decide)

/-- C9 counterexample: in a tree whose outer node is guarded by the
enabled flag_a and whose inner node carries its own guard flag_b (also
enabled), the single emitted target's if field holds flag_b, not
flag_a, so not every target of the outer node's subtree carries the
outer guard's flag name. -/
theorem nested_guard_overrides_if_field :
    targets_from c9Outer ["flag_a", "flag_b"] [] = .ok [c9OuterTarget]
    ∧ chainLookup c9OuterTarget ifKey = some (.vstr [.lit "flag_b"])
    ∧ PyVal.vstr [Tok.lit "flag_b"] ≠ PyVal.vstr [Tok.lit "flag_a"] :=
  ⟨rfl, rfl, by decide⟩

/-- C9 (amended): the if key of a node is merged into the accumulated
configuration exactly like an ordinary scalar field, so an emitted
target carries an if field whose value is the flag of the nearest
enclosing guard: merging assigns the node's own if value over the
inherited one, and in the single-guard tree the emitted target's if
field is the guard's flag. -/
theorem guard_flag_merged_into_config :
    (∀ (base : List (String × PyVal)) (entries : PyEntries) (cond : PyVal),
        entries.keys.Nodup → entries.lookup ifKey = some cond → is_value_type cond = true →
        lookupAssoc (mergeEntries base entries) ifKey = some cond)
    ∧ targets_from c9Simple ["flag_a"] [] = .ok [c9SimpleTarget]
    ∧ chainLookup c9SimpleTarget ifKey = some (.vstr [.lit "flag_a"]) := by
  refine ⟨?_, rfl, rfl⟩
  intro base entries cond hnd hl hvt
  exact mergeEntries_lookup_of_nodup entries base ifKey cond hnd hl hvt (by decide)

theorem guard_flag_merged_into_config_witness :
    lookupAssoc (mergeEntries [] (.cons ("if") (.vstr [.lit "x"]) .nil)) ifKey =
    some (PyVal.vstr [Tok.lit "x"]) :=
  guard_flag_merged_into_config.1 [] _ _ (by decide) rfl rfl

/-- C7: is_installed resolves in order: a configured symlink check
that reports a mismatch is authoritative and yields not installed
regardless of the other checks; otherwise a configured marker file is
authoritative (its presence is the result); otherwise the probe
command decides, where only a zero exit means installed and both a
missing executable and a non-zero exit yield not installed without
raising. -/
theorem is_installed_resolution_order (c : CheckConfig) :
    (c.check_link = some false → Installable.is_installed c = false)
    ∧ (c.check_link ≠ some false → ∀ present, c.check_file = some present →
        Installable.is_installed c = present)
    ∧ (c.check_link ≠ some false → c.check_file = none →
        (Installable.is_installed c = true ↔ c.probe = .exitZero)) := by
  obtain ⟨cl, cf, pr⟩ := c
  refine ⟨?_, ?_, ?_⟩
  · intro h
    simp only at h
    simp [Installable.is_installed, h]
  · intro h present hf
    simp only at h hf
    subst hf
    simp [Installable.is_installed, h]
  · intro h hf
    simp only at h hf
    subst hf
    cases pr <;> simp [Installable.is_installed, h]

theorem is_installed_resolution_order_witness :
    Installable.is_installed ⟨some false, some true, .exitZero⟩ = false :=
  (is_installed_resolution_order ⟨some false, some true, .exitZero⟩).1 rfl

/-- C8: when any declared dependee reports not installed, install
returns failure immediately with the filesystem state untouched (no
staging, no destination mutation), because the base-class dependency
check yields False exactly when some dependee is missing. -/
theorem missing_dependee_aborts_install (g : GitHubInstallable)
    (depends_installed : List Bool) (ctx : InstallationContext) (st : FsState)
    (fetched : Content) (rename_in_fails : Bool) (h : false ∈ depends_installed) :
    GitHubInstallable.install g depends_installed ctx st fetched rename_in_fails =
      .returned false st
    ∧ Installable.install depends_installed = false := by
  have hall : depends_installed.all (fun d => d) = false := by
    rw [Bool.eq_false_iff]
    intro hc
    rw [List.all_eq_true] at hc
    exact Bool.false_ne_true (hc false h)
  have hinst : Installable.install depends_installed = false := by
    rw [Installable.install_eq_all]
    exact hall
  refine ⟨?_, hinst⟩
  unfold GitHubInstallable.install
  rw [if_pos hinst]

theorem missing_dependee_aborts_install_witness :
    GitHubInstallable.install c8Git [true, false] exCtx exMoveState 9 false =
      .returned false exMoveState :=
  (missing_dependee_aborts_install c8Git [true, false] exCtx exMoveState 9 false
    (by decide)).1

theorem moveCoreRollback (files : List (String × Content)) (D T : String) (co : Content)
    (hd : fsLookup files D = some co) :
    fsLookup (fsReplace (fsReplace files D T) T D) D = some co := by
  have e1 : fsReplace files D T = fsSet (fsRemove files D) T co := by
    unfold fsReplace
    rw [hd]
  have e2 : fsLookup (fsSet (fsRemove files D) T co) T = some co :=
    fsLookup_fsSet_self _ T co
  have e3 : fsReplace (fsSet (fsRemove files D) T co) T D =
      fsSet (fsRemove (fsSet (fsRemove files D) T co) T) D co := by
    unfold fsReplace
    rw [e2]
  rw [e1, e3]
  exact fsLookup_fsSet_self _ D co

theorem moveCoreSuccess (files : List (String × Content)) (S D T : String)
    (cs co : Content) (hs : fsLookup files S = some cs) (hd : fsLookup files D = some co)
    (h1 : D ≠ T) (h2 : S ≠ D) (h3 : S ≠ T) :
    fsLookup (fsRemove (fsReplace (fsReplace files D T) S D) T) D = some cs := by
  have e1 : fsReplace files D T = fsSet (fsRemove files D) T co := by
    unfold fsReplace
    rw [hd]
  have e2 : fsLookup (fsSet (fsRemove files D) T co) S = some cs := by
    rw [fsLookup_fsSet_ne _ T S co (Ne.symm h3), fsLookup_fsRemove_ne files D S (Ne.symm h2)]
    exact hs
  have e3 : fsReplace (fsSet (fsRemove files D) T co) S D =
      fsSet (fsRemove (fsSet (fsRemove files D) T co) S) D cs := by
    unfold fsReplace
    rw [e2]
  rw [e1, e3, fsLookup_fsRemove_ne _ T D (Ne.symm h1)]
  exact fsLookup_fsSet_self _ D cs

/-- C1: the atomic move with a pre-existing destination.  If the
rename-in of the source fails, the call surfaces the failure and the
destination path again holds exactly its pre-operation contents (the
aside-renamed old destination was renamed back); if the rename-in
succeeds, the call returns normally and the destination holds the
staged artifact.  Either way the destination is never missing or
partial. -/
theorem move_from_staging_rollback (ctx : InstallationContext) (st : FsState)
    (source dest : String) (origContent stagedContent : Content)
    (hdry : ctx.dry_run = false)
    (hsrc : fsLookup st.files (joinPath ctx.staging source) = some stagedContent)
    (hdest : fsLookup st.files (joinPath ctx.destination dest) = some origContent)
    (h1 : joinPath ctx.destination dest ≠ joinPath ctx.staging tempOrigName)
    (h2 : joinPath ctx.staging source ≠ joinPath ctx.destination dest)
    (h3 : joinPath ctx.staging source ≠ joinPath ctx.staging tempOrigName) :
    ((ctx.move_from_staging st true source (some dest)).1 = .errRenameFailed ∧
      fsLookup (ctx.move_from_staging st true source (some dest)).2.files
        (joinPath ctx.destination dest) = some origContent) ∧
    ((ctx.move_from_staging st false source (some dest)).1 = .ok ∧
      fsLookup (ctx.move_from_staging st false source (some dest)).2.files
        (joinPath ctx.destination dest) = some stagedContent) := by
  have hcall_t : ctx.move_from_staging st true source (some dest) =
      (MoveOutcome.errRenameFailed,
       { st with files :=
           (fsReplace
             (fsReplace st.files (joinPath ctx.destination dest)
               (joinPath ctx.staging tempOrigName))
             (joinPath ctx.staging tempOrigName) (joinPath ctx.destination dest)) }) := by
    unfold InstallationContext.move_from_staging
    simp only [Option.getD_some]
    rw [if_neg (by simp [hdry]), if_neg (by simp [hsrc]), if_pos (by simp [hdest])]
    simp
  have hcall_f : ctx.move_from_staging st false source (some dest) =
      (MoveOutcome.ok,
       { st with files :=
           (fsRemove
             (fsReplace
               (fsReplace st.files (joinPath ctx.destination dest)
                 (joinPath ctx.staging tempOrigName))
               (joinPath ctx.staging source) (joinPath ctx.destination dest))
             (joinPath ctx.staging tempOrigName)) }) := by
    unfold InstallationContext.move_from_staging
    simp only [Option.getD_some]
    rw [if_neg (by simp [hdry]), if_neg (by simp [hsrc]), if_pos (by simp [hdest])]
    simp
  refine ⟨⟨?_, ?_⟩, ?_, ?_⟩
  · rw [hcall_t]
  · rw [hcall_t]
    exact moveCoreRollback st.files _ _ origContent hdest
  · rw [hcall_f]
  · rw [hcall_f]
    exact moveCoreSuccess st.files _ _ _ stagedContent origContent hsrc hdest h1 h2 h3

theorem move_from_staging_rollback_witness :
    (exCtx.move_from_staging exMoveState true ("src") (some ("dst"))).1 =
      MoveOutcome.errRenameFailed ∧
    fsLookup (exCtx.move_from_staging exMoveState true ("src") (some ("dst"))).2.files
      (joinPath exCtx.destination ("dst")) = some 3 :=
  (move_from_staging_rollback exCtx exMoveState ("src") ("dst") 3 7 rfl rfl rfl
    (by decide) (by decide) (by decide)).1

/-- C2 counterexample: in the end-to-end scenario of the claim
(num_to_keep = 2, pre-existing ascending versions v1 v2 v3, new
version v4) the install succeeds but gcc-v1 is still installed
afterwards: the retention pass computes keep = num_to_keep + 1 = 3 and
removes the versions before the newest 3 of the 3 pre-existing ones,
which is none of them, so v1 is not removed and three old versions
remain rather than two. -/
theorem nightly_retention_keeps_oldest :
    c2Run.isSuccess = true ∧
    fsLookup c2Run.state.files ("opt/gcc-v1") = some 1 := ⟨rfl, rfl⟩

/-- C2 (amended): the retention pass keeps the newest
num_to_keep + 1 pre-existing versions (one more than the configured
retain count, added for the not-yet-installed new version), so in the
claim's scenario nothing is removed: after install v1 v2 v3 v4 are all
present and the current symlink points at the new v4. -/
theorem nightly_retention_keeps_kplus1 :
    c2Run = .returned true
      ⟨[("opt/gcc-v1", 1), ("opt/gcc-v2", 2), ("opt/gcc-v3", 3), ("opt/gcc-v4", 4)],
       [("opt/gcc", "gcc-v4")], []⟩ := rfl

/-- C3 counterexample: with the build script succeeding and dry-run
off, the combination's recorded outcome is the conan-export result:
flipping only the packaging outcome flips the combination between the
failed and succeeded tallies and flips the overall makebuild result,
so the tally does not depend only on the build script's exit status. -/
theorem conan_failure_flips_build_tally :
    (Installable.makebuildfor true false false).1 = false ∧
    (Installable.makebuildfor true false true).1 = true ∧
    Installable.makebuild [(Installable.makebuildfor true false false).1] = false ∧
    Installable.makebuild [(Installable.makebuildfor true false true).1] = true := by
  decide

/-- C3 (amended): on build success with dry-run off the
packaging-export script is executed and its result becomes the
combination's outcome, so a combination counts as succeeded iff the
build succeeded and (dry-run is on or the packaging succeeded); the
overall makebuild result is true iff no combination failed. -/
theorem build_tally_includes_packaging :
    (∀ builtok_build dry_run conan_ok : Bool,
        (Installable.makebuildfor builtok_build dry_run conan_ok).2 =
          (builtok_build && !dry_run) ∧
        (Installable.makebuildfor builtok_build dry_run conan_ok).1 =
          (builtok_build && (dry_run || conan_ok)))
    ∧ (∀ outcomes : List Bool, Installable.makebuild outcomes = outcomes.all fun b => b) := by
  constructor
  · intro b d c
    constructor <;> (cases b <;> cases d <;> cases c <;> rfl)
  · exact Installable.makebuild_eq_all
